import Mathlib

/-!
Verification of the passcards synchronization core and its
Agile Keychain crypto helpers.

The pure string-processing helpers (`newUUID`,
`extractSaltAndCipherText`) are embedded directly from the
TypeScript sources.  The `Syncer` itself is not part of the
source tree (only its test suite is), so its data model and
pipeline are modelled from the specification, with the observable
behaviour pinned down by the test suite in `src/lib/sync_test.ts`.
-/

namespace Passcards

/-! ## Agile Keychain crypto helpers -/

/-- JavaScript `String.prototype.toUpperCase`, character by character.
On the basic-latin characters produced by `uuid.v4()` this agrees with
`Char.toUpper`. -/
def jsToUpperCase (s : List Char) : List Char := s.map Char.toUpper

/-- JavaScript global replace of the hyphen by the empty string:
drop every hyphen. -/
def stripHyphens (s : List Char) : List Char := s.filter (fun c => c ≠ '-')

/-- `newUUID` from the agile_keychain crypto module:
`uuid.v4().toUpperCase()` followed by global removal of hyphens, with
the output of `uuid.v4()` abstracted as the input string. -/
def newUUID (v4 : List Char) : List Char := stripHyphens (jsToUpperCase v4)

/-- The characters that can occur in the string returned by `uuid.v4()`:
lowercase hexadecimal digits and the hyphen separator. -/
def uuidV4Alphabet : List Char := "0123456789abcdef-".toList

/-- Result of splitting an OpenSSL-style salted ciphertext. -/
structure SaltedCipherText where
  salt : List Char
  cipherText : List Char
deriving DecidableEq

/-- `extractSaltAndCipherText` from the agile_keychain crypto module:
rejects inputs that do not begin with `Salted__`, then returns
characters 8..16 as the salt and the rest as the ciphertext. -/
def crypto_extractSaltAndCipherText (input : List Char) :
    Except (List Char) SaltedCipherText :=
  if input.take 8 ≠ "Salted__".toList then
    Except.error "Ciphertext missing salt".toList
  else
    Except.ok ⟨(input.drop 8).take 8, input.drop 16⟩

/-- `extractSaltAndCipherText` from the vault module: no prefix check,
always returns characters 8..16 as the salt and the rest as the
ciphertext. -/
def vault_extractSaltAndCipherText (input : List Char) : SaltedCipherText :=
  ⟨(input.drop 8).take 8, input.drop 16⟩

/-! ## Theorems about the crypto helpers -/

/-- Per-character facts about `Char.toUpper` on the `uuid.v4()` alphabet,
checked by evaluation. -/
theorem toUpper_uuidAlphabet :
    ∀ c ∈ uuidV4Alphabet,
      (Char.toUpper c).isLower = false ∧
      (c ≠ '-' → Char.toUpper c ≠ '-') ∧
      (c = '-' → Char.toUpper c = '-') := by decide

/-- C9: on any `uuid.v4()`-shaped input, `newUUID` contains no hyphens and
no lowercase letters, and equals the input with hyphens removed and every
character uppercased. -/
theorem newUUID_uppercase_no_hyphens (v4 : List Char)
    (h : ∀ c ∈ v4, c ∈ uuidV4Alphabet) :
    (∀ c ∈ newUUID v4, c ≠ '-' ∧ c.isLower = false) ∧
    newUUID v4 = jsToUpperCase (stripHyphens v4) := by
  constructor
  · intro c hc
    simp only [newUUID, stripHyphens, jsToUpperCase, List.mem_filter,
      List.mem_map] at hc
    obtain ⟨⟨a, ha, rfl⟩, hnh⟩ := hc
    refine ⟨by simpa using hnh, ?_⟩
    exact (toUpper_uuidAlphabet a (h a ha)).1
  · simp only [newUUID, stripHyphens, jsToUpperCase]
    rw [List.filter_map]
    refine congrArg (List.map Char.toUpper) (List.filter_congr ?_)
    intro c hc
    have hfacts := toUpper_uuidAlphabet c (h c hc)
    by_cases hd : c = '-'
    · subst hd
      simp [Function.comp, hfacts.2.2 rfl]
    · simp [Function.comp, hfacts.2.1 hd, hd]

/-- Witness for C9 at a concrete `uuid.v4()` output. -/
theorem newUUID_uppercase_no_hyphens_witness :
    (∀ c ∈ newUUID "9e68a7a9-16c2-4f11-8a10-4f812ce6b482".toList,
      c ≠ '-' ∧ c.isLower = false) ∧
    newUUID "9e68a7a9-16c2-4f11-8a10-4f812ce6b482".toList =
      jsToUpperCase (stripHyphens "9e68a7a9-16c2-4f11-8a10-4f812ce6b482".toList) :=
  newUUID_uppercase_no_hyphens _ (by decide)

/-- C10: on inputs beginning with `Salted__` the two
`extractSaltAndCipherText` implementations agree (salt = characters
8..16, ciphertext = the remainder); on other inputs the crypto-module
version throws `Ciphertext missing salt` while the vault version still
returns the unchecked split. -/
theorem extractSaltAndCipherText_refines (input : List Char) :
    (input.take 8 = "Salted__".toList →
      crypto_extractSaltAndCipherText input =
        Except.ok (vault_extractSaltAndCipherText input) ∧
      (vault_extractSaltAndCipherText input).salt = (input.drop 8).take 8 ∧
      (vault_extractSaltAndCipherText input).cipherText = input.drop 16) ∧
    (input.take 8 ≠ "Salted__".toList →
      crypto_extractSaltAndCipherText input =
        Except.error "Ciphertext missing salt".toList ∧
      vault_extractSaltAndCipherText input =
        ⟨(input.drop 8).take 8, input.drop 16⟩) := by
  constructor
  · intro h
    refine ⟨?_, rfl, rfl⟩
    unfold crypto_extractSaltAndCipherText
    rw [if_neg (not_not_intro h)]
    rfl
  · intro h
    refine ⟨?_, rfl⟩
    unfold crypto_extractSaltAndCipherText
    rw [if_pos h]

/-- Witness for C10 at concrete salted and unsalted inputs. -/
theorem extractSaltAndCipherText_refines_witness :
    (crypto_extractSaltAndCipherText "Salted__ABCDEFGHxyz".toList =
      Except.ok (vault_extractSaltAndCipherText "Salted__ABCDEFGHxyz".toList)) ∧
    (crypto_extractSaltAndCipherText "plain".toList =
      Except.error "Ciphertext missing salt".toList) :=
  ⟨((extractSaltAndCipherText_refines "Salted__ABCDEFGHxyz".toList).1
      (by decide)).1,
   ((extractSaltAndCipherText_refines "plain".toList).2 (by decide)).1⟩

/-! ## The synchronization core

The `Syncer` implementation itself is not in the source tree (only its
test suite is), so the following definitions are modelled from the
specification, with observable behaviour pinned by the tests in
`src/lib/sync_test.ts`. -/

/-- Modelled from the spec: the item record synchronized between
replicas (spec section 3): uuid, title, updatedAt and createdAt
timestamps in milliseconds, trashed tombstone flag, ordered locations,
opaque content. -/
structure Item where
  uuid : String
  title : String
  updatedAt : Nat
  createdAt : Nat
  trashed : Bool
  locations : List String
  content : String
deriving DecidableEq

/-- Modelled from the spec: `sync.itemUpdateTimesEqual` — two update
timestamps are equal after normalizing to the coarser precision of
integer seconds. -/
def itemUpdateTimesEqual (a b : Nat) : Bool := a / 1000 == b / 1000

/-- Modelled from the spec: a tombstone is a retained record whose
trashed flag is set. -/
def Item.isTombstone (it : Item) : Bool := it.trashed

/-- Modelled from the spec: `Store.listItems` — tombstones are surfaced
only when the includeTombstones option is set. -/
def listItems (items : List Item) (includeTombstones : Bool) : List Item :=
  if includeTombstones then items else items.filter (fun it => !it.isTombstone)

/-- Look an item up by uuid in a replica listing. -/
def findItem (items : List Item) (u : String) : Option Item :=
  items.find? (fun it => it.uuid == u)

/-- Save an item into a replica listing: replace the entry carrying the
same uuid, or append the item when the uuid is new. -/
def upsertItem (items : List Item) (it : Item) : List Item :=
  if items.any (fun x => x.uuid == it.uuid) then
    items.map (fun x => if x.uuid == it.uuid then it else x)
  else items ++ [it]

/-- Modelled from the spec: the per-pair agreement check — the two sides
carry the same title, trashed flag, locations and content. -/
def recordsAgree (l c : Item) : Bool :=
  l.title == c.title && l.trashed == c.trashed &&
    l.locations == c.locations && l.content == c.content

/-- Direction of one whole-record copy. -/
inductive MergeAction where
  | copyToLocal (it : Item)
  | copyToCloud (it : Item)
deriving DecidableEq

/-- Modelled from the spec: the ItemDiffEngine classification of one
uuid pair (section 4.3) combined with the ConflictResolver policy
(section 4.4).  One-sided entries are copied to the other side; of
two-sided pairs the strictly newer record wins entirely; pairs equal
within tolerance and agreeing need no action; conflicting pairs equal
within tolerance are resolved by the later raw updatedAt with the cloud
side winning exact ties.  In-sync pairs produce no work, matching the
progress totals asserted by the repository's sync tests. -/
def classifyPair (l c : Option Item) : Option MergeAction :=
  match l, c with
  | none, none => none
  | none, some ci => some (MergeAction.copyToLocal ci)
  | some li, none => some (MergeAction.copyToCloud li)
  | some li, some ci =>
    if itemUpdateTimesEqual li.updatedAt ci.updatedAt then
      if recordsAgree li ci then none
      else if ci.updatedAt < li.updatedAt then some (MergeAction.copyToCloud li)
      else some (MergeAction.copyToLocal ci)
    else if ci.updatedAt < li.updatedAt then some (MergeAction.copyToCloud li)
    else some (MergeAction.copyToLocal ci)

/-- All uuids listed on either replica, cloud entries first. -/
def allUuids (loc cld : List Item) : List String :=
  cld.map Item.uuid ++
    (loc.map Item.uuid).filter (fun u => !(cld.map Item.uuid).contains u)

/-- Modelled from the spec: the ordered work list — one entry per uuid
needing action, fixed before any per-item work begins. -/
def workList (loc cld : List Item) : List String :=
  (allUuids loc cld).filter
    (fun u => (classifyPair (findItem loc u) (findItem cld u)).isSome)

/-- Modelled from the spec: the mutable state of one syncItems run. -/
structure RunState where
  localItems : List Item
  cloudItems : List Item
  updated : Nat
  failed : Nat
deriving DecidableEq

/-- Modelled from the spec: the per-run state machine states. -/
inductive SyncState where
  | Idle
  | ListingItems
  | SyncingItems
deriving DecidableEq

/-- Modelled from the spec: a point-in-time progress snapshot. -/
structure SyncProgress where
  state : SyncState
  total : Nat
  active : Nat
  updated : Nat
  failed : Nat
deriving DecidableEq

/-- Snapshot of the given state and counters; transfers are sequential
in this model, so no transfer is active at emission time. -/
def snapshot (st : SyncState) (total : Nat) (rs : RunState) : SyncProgress :=
  ⟨st, total, 0, rs.updated, rs.failed⟩

/-- Modelled from the spec: one item transfer.  A locked cloud replica
fails the transfer — counted, not fatal; otherwise the whole record is
saved on the destination replica. -/
def applyAction (cloudUnlocked : Bool) (rs : RunState) (a : MergeAction) :
    RunState :=
  if !cloudUnlocked then { rs with failed := rs.failed + 1 }
  else match a with
  | MergeAction.copyToLocal it =>
      { rs with localItems := upsertItem rs.localItems it,
                updated := rs.updated + 1 }
  | MergeAction.copyToCloud it =>
      { rs with cloudItems := upsertItem rs.cloudItems it,
                updated := rs.updated + 1 }

/-- Modelled from the spec: process one work-list entry against the
current replica contents. -/
def processUuid (cloudUnlocked : Bool) (rs : RunState) (u : String) :
    RunState :=
  match classifyPair (findItem rs.localItems u) (findItem rs.cloudItems u) with
  | none => rs
  | some a => applyAction cloudUnlocked rs a

/-- Process the work-list entries in order. -/
def runItems (cloudUnlocked : Bool) (rs : RunState) (us : List String) :
    RunState :=
  us.foldl (processUuid cloudUnlocked) rs

/-- SyncingItems snapshots emitted after each item transfer completes. -/
def runSnapshots (cloudUnlocked : Bool) (total : Nat) (rs : RunState) :
    List String → List SyncProgress
  | [] => []
  | u :: rest =>
    let rs' := processUuid cloudUnlocked rs u
    snapshot SyncState.SyncingItems total rs' ::
      runSnapshots cloudUnlocked total rs' rest

/-- Modelled from the spec: the run-level error taxonomy entry that is
fatal to a whole run. -/
inductive SyncError where
  | LockedReplica
deriving DecidableEq

/-- Outcome of a completed syncItems run: the resolved stats, the two
replica listings after the run, and the emitted progress snapshots. -/
structure SyncResult where
  stats : SyncProgress
  localItems : List Item
  cloudItems : List Item
  progress : List SyncProgress
deriving DecidableEq

/-- Modelled from the spec: the full syncItems pipeline.  A local
replica that cannot be unlocked fails the whole run with an explicit
error and no stats.  Otherwise the run emits ListingItems, computes the
work list and its fixed total, emits SyncingItems, processes every entry
emitting a snapshot after each, and finally emits Idle — the Idle
snapshot doubling as the resolved SyncStats. -/
def syncItems (localUnlocked cloudUnlocked : Bool) (loc cld : List Item) :
    Except SyncError SyncResult :=
  if !localUnlocked then Except.error SyncError.LockedReplica
  else
    let wl := workList loc cld
    let total := wl.length
    let rs0 : RunState := ⟨loc, cld, 0, 0⟩
    let rsF := runItems cloudUnlocked rs0 wl
    let pIdle := snapshot SyncState.Idle total rsF
    Except.ok
      { stats := pIdle,
        localItems := rsF.localItems,
        cloudItems := rsF.cloudItems,
        progress :=
          [SyncProgress.mk SyncState.ListingItems 0 0 0 0,
           snapshot SyncState.SyncingItems total rs0] ++
            runSnapshots cloudUnlocked total rs0 wl ++ [pIdle] }

/-- An encryption key entry owned by a replica. -/
structure Key where
  identifier : String
  level : String
  material : String
deriving DecidableEq

/-- Failure of the password-hint fetch. -/
inductive HintError where
  | FetchFailed
deriving DecidableEq

/-- Key list and password hint held by a replica. -/
structure KeyStore where
  keys : List Key
  hint : String
deriving DecidableEq

/-- Modelled from the spec: a failed hint fetch is recovered locally by
defaulting the hint to the empty string; the error never surfaces. -/
def fetchHintOrDefault (fetch : Except HintError String) : String :=
  match fetch with
  | Except.ok h => h
  | Except.error _ => ""

/-- Modelled from the spec and pinned by the sync tests: syncKeys copies
the cloud replica's key list and password hint — the hint defaulting to
the empty string when its fetch fails — to the local replica. -/
def syncKeys (cloudKeys : List Key) (hintFetch : Except HintError String) :
    KeyStore :=
  { keys := cloudKeys, hint := fetchHintOrDefault hintFetch }

/-- Modelled from the spec: the per-operation single-flight slot of a
Syncer (design notes section 9): new callers read the in-flight handle
instead of starting new work.  Handles are numbered runs. -/
structure Syncer where
  inFlightItems : Option Nat
  nextHandle : Nat
deriving DecidableEq

/-- Modelled from the spec: a call to syncItems on the Syncer returns
the outstanding handle when one is in flight, otherwise starts a new
run and records its handle in the slot. -/
def syncItemsCall (s : Syncer) : Nat × Syncer :=
  match s.inFlightItems with
  | some h => (h, s)
  | none => (s.nextHandle, ⟨some s.nextHandle, s.nextHandle + 1⟩)

/-- Modelled from the spec: the slot is cleared only after the run
fully resolves. -/
def completeItemsRun (s : Syncer) : Syncer := { s with inFlightItems := none }

/-- Expected final pair of entries for a uuid once its work-list entry
has been processed: an untouched in-sync pair, or the winning record on
both sides. -/
def mergedPair (l c : Option Item) : Option Item × Option Item :=
  match classifyPair l c with
  | none => (l, c)
  | some (MergeAction.copyToLocal it) => (some it, some it)
  | some (MergeAction.copyToCloud it) => (some it, some it)

/-! ## Lemmas about item lookup and saving -/

theorem findItem_uuid {items : List Item} {u : String} {it : Item}
    (h : findItem items u = some it) : it.uuid = u := by
  have hp := List.find?_some h
  simpa using hp

theorem findItem_mem {items : List Item} {u : String} {it : Item}
    (h : findItem items u = some it) : it ∈ items :=
  List.mem_of_find?_eq_some h

theorem find?_replaceAll (it : Item) :
    ∀ items : List Item, items.any (fun x => x.uuid == it.uuid) = true →
      (items.map (fun x => if x.uuid == it.uuid then it else x)).find?
        (fun x => x.uuid == it.uuid) = some it := by
  intro items
  induction items with
  | nil => intro h; simp at h
  | cons a as ih =>
    intro h
    by_cases ha : a.uuid = it.uuid
    · rw [List.map_cons, if_pos (show (a.uuid == it.uuid) = true by simpa using ha),
        List.find?_cons_of_pos]
      simp
    · have h' : as.any (fun x => x.uuid == it.uuid) = true := by
        rcases List.any_eq_true.1 h with ⟨x, hx, hpx⟩
        rcases List.mem_cons.1 hx with rfl | hx'
        · exact absurd (by simpa using hpx) ha
        · exact List.any_eq_true.2 ⟨x, hx', hpx⟩
      rw [List.map_cons,
        if_neg (show ¬ (a.uuid == it.uuid) = true by simpa using ha),
        List.find?_cons_of_neg]
      · exact ih h'
      · simpa using ha

theorem find?_replaceAll_other (it : Item) (v : String) (hv : v ≠ it.uuid) :
    ∀ items : List Item,
      (items.map (fun x => if x.uuid == it.uuid then it else x)).find?
        (fun x => x.uuid == v) = items.find? (fun x => x.uuid == v) := by
  intro items
  induction items with
  | nil => rfl
  | cons a as ih =>
    by_cases ha : a.uuid = it.uuid
    · rw [List.map_cons, if_pos (show (a.uuid == it.uuid) = true by simpa using ha),
        List.find?_cons_of_neg]
      · rw [List.find?_cons_of_neg]
        · exact ih
        · rw [ha]
          simpa using Ne.symm hv
      · simpa using Ne.symm hv
    · rw [List.map_cons,
        if_neg (show ¬ (a.uuid == it.uuid) = true by simpa using ha)]
      by_cases hav : a.uuid = v
      · rw [List.find?_cons_of_pos, List.find?_cons_of_pos] <;> simpa using hav
      · rw [List.find?_cons_of_neg]
        · rw [List.find?_cons_of_neg]
          · exact ih
          · simpa using hav
        · simpa using hav

theorem findItem_upsert_self (items : List Item) (it : Item) :
    findItem (upsertItem items it) it.uuid = some it := by
  unfold upsertItem findItem
  by_cases hany : items.any (fun x => x.uuid == it.uuid) = true
  · rw [if_pos hany]
    exact find?_replaceAll it items hany
  · rw [if_neg hany]
    have hnone : items.find? (fun x => x.uuid == it.uuid) = none := by
      rw [List.find?_eq_none]
      intro x hx hpx
      exact hany (List.any_eq_true.2 ⟨x, hx, hpx⟩)
    simp [List.find?_append, hnone]

theorem findItem_upsert_other (items : List Item) (it : Item) (v : String)
    (hv : v ≠ it.uuid) :
    findItem (upsertItem items it) v = findItem items v := by
  unfold upsertItem findItem
  by_cases hany : items.any (fun x => x.uuid == it.uuid) = true
  · rw [if_pos hany]
    exact find?_replaceAll_other it v hv items
  · rw [if_neg hany, List.find?_append]
    have hsing : [it].find? (fun x => x.uuid == v) = none := by
      simp [List.find?_cons_of_neg]
      exact Ne.symm hv
    rw [hsing]
    cases items.find? (fun x => x.uuid == v) <;> rfl

theorem findItem_none_iff {items : List Item} {u : String} :
    findItem items u = none ↔ u ∉ items.map Item.uuid := by
  unfold findItem
  rw [List.find?_eq_none]
  constructor
  · intro h hm
    rcases List.mem_map.1 hm with ⟨x, hx, rfl⟩
    exact h x hx (by simp)
  · intro h x hx hpx
    exact h (List.mem_map.2 ⟨x, hx, by simpa using hpx⟩)

theorem upsert_uuid_nodup (items : List Item) (it : Item)
    (h : (items.map Item.uuid).Nodup) :
    ((upsertItem items it).map Item.uuid).Nodup := by
  unfold upsertItem
  by_cases hany : items.any (fun x => x.uuid == it.uuid) = true
  · rw [if_pos hany, List.map_map]
    have : (Item.uuid ∘ fun x => if x.uuid == it.uuid then it else x) =
        Item.uuid := by
      funext x
      by_cases hx : (x.uuid == it.uuid) = true
      · have hx' : x.uuid = it.uuid := beq_iff_eq.mp hx
        simp [Function.comp, hx, hx']
      · simp [Function.comp, hx]
    rw [this]
    exact h
  · rw [if_neg hany, List.map_append]
    rw [List.nodup_append]
    refine ⟨h, by simp, ?_⟩
    intro a ha hb
    simp at hb
    subst hb
    rcases List.mem_map.1 ha with ⟨x, hx, hxu⟩
    exact hany (List.any_eq_true.2 ⟨x, hx, by simpa using hxu⟩)

/-! ## Lemmas about the pair classification -/

theorem classifyPair_copyToLocal {l c : Option Item} {it : Item}
    (h : classifyPair l c = some (MergeAction.copyToLocal it)) :
    c = some it := by
  cases l with
  | none =>
    cases c with
    | none => simp [classifyPair] at h
    | some ci =>
      simp [classifyPair] at h
      simp [h]
  | some li =>
    cases c with
    | none => simp [classifyPair] at h
    | some ci =>
      simp only [classifyPair] at h
      split_ifs at h <;> simp_all

theorem classifyPair_copyToCloud {l c : Option Item} {it : Item}
    (h : classifyPair l c = some (MergeAction.copyToCloud it)) :
    l = some it := by
  cases l with
  | none =>
    cases c with
    | none => simp [classifyPair] at h
    | some ci => simp [classifyPair] at h
  | some li =>
    cases c with
    | none =>
      simp [classifyPair] at h
      simp [h]
    | some ci =>
      simp only [classifyPair] at h
      split_ifs at h <;> simp_all

theorem classifyPair_self (it : Item) :
    classifyPair (some it) (some it) = none := by
  simp [classifyPair, itemUpdateTimesEqual, recordsAgree]

theorem classifyPair_none_inv {l c : Option Item}
    (h : classifyPair l c = none) :
    (l = none ∧ c = none) ∨
    (∃ li ci, l = some li ∧ c = some ci ∧
      itemUpdateTimesEqual li.updatedAt ci.updatedAt = true ∧
      recordsAgree li ci = true) := by
  cases l with
  | none =>
    cases c with
    | none => exact Or.inl ⟨rfl, rfl⟩
    | some ci => simp [classifyPair] at h
  | some li =>
    cases c with
    | none => simp [classifyPair] at h
    | some ci =>
      simp only [classifyPair] at h
      split_ifs at h with h1 h2
      · exact Or.inr ⟨li, ci, rfl, rfl, by simpa using h1, by simpa using h2⟩

theorem classifyPair_mergedPair (l c : Option Item) :
    classifyPair (mergedPair l c).1 (mergedPair l c).2 = none := by
  unfold mergedPair
  cases hcl : classifyPair l c with
  | none => exact hcl
  | some a => cases a <;> exact classifyPair_self _

theorem recordsAgree_fields {l c : Item} (h : recordsAgree l c = true) :
    l.title = c.title ∧ l.trashed = c.trashed ∧
      l.locations = c.locations ∧ l.content = c.content := by
  unfold recordsAgree at h
  simp only [Bool.and_eq_true, beq_iff_eq] at h
  exact ⟨h.1.1.1, h.1.1.2, h.1.2, h.2⟩

/-! ## Lemmas about one run of the item pipeline -/

theorem processUuid_frame (cu : Bool) (rs : RunState) (u v : String)
    (hv : v ≠ u) :
    findItem (processUuid cu rs u).localItems v = findItem rs.localItems v ∧
    findItem (processUuid cu rs u).cloudItems v = findItem rs.cloudItems v := by
  unfold processUuid
  cases hcl : classifyPair (findItem rs.localItems u)
      (findItem rs.cloudItems u) with
  | none => exact ⟨rfl, rfl⟩
  | some a =>
    cases a with
    | copyToLocal it =>
      have hc := classifyPair_copyToLocal hcl
      have huu : it.uuid = u := findItem_uuid hc
      unfold applyAction
      cases cu with
      | false => exact ⟨rfl, rfl⟩
      | true =>
        simp only [Bool.not_true, Bool.false_eq_true, if_false]
        exact ⟨findItem_upsert_other _ _ _ (huu ▸ hv), by trivial⟩
    | copyToCloud it =>
      have hc := classifyPair_copyToCloud hcl
      have huu : it.uuid = u := findItem_uuid hc
      unfold applyAction
      cases cu with
      | false => exact ⟨rfl, rfl⟩
      | true =>
        simp only [Bool.not_true, Bool.false_eq_true, if_false]
        exact ⟨by trivial, findItem_upsert_other _ _ _ (huu ▸ hv)⟩

theorem processUuid_value (rs : RunState) (u : String) :
    findItem (processUuid true rs u).localItems u =
      (mergedPair (findItem rs.localItems u) (findItem rs.cloudItems u)).1 ∧
    findItem (processUuid true rs u).cloudItems u =
      (mergedPair (findItem rs.localItems u) (findItem rs.cloudItems u)).2 := by
  unfold processUuid mergedPair
  cases hcl : classifyPair (findItem rs.localItems u)
      (findItem rs.cloudItems u) with
  | none => exact ⟨rfl, rfl⟩
  | some a =>
    cases a with
    | copyToLocal it =>
      have hc := classifyPair_copyToLocal hcl
      have huu : it.uuid = u := findItem_uuid hc
      unfold applyAction
      simp only [Bool.not_true, Bool.false_eq_true, if_false]
      exact ⟨huu ▸ findItem_upsert_self _ _, hc⟩
    | copyToCloud it =>
      have hc := classifyPair_copyToCloud hcl
      have huu : it.uuid = u := findItem_uuid hc
      unfold applyAction
      simp only [Bool.not_true, Bool.false_eq_true, if_false]
      exact ⟨hc, huu ▸ findItem_upsert_self _ _⟩

theorem runItems_cons (cu : Bool) (rs : RunState) (u : String)
    (us : List String) :
    runItems cu rs (u :: us) = runItems cu (processUuid cu rs u) us := rfl

theorem runItems_frame (cu : Bool) (v : String) :
    ∀ (us : List String) (rs : RunState), v ∉ us →
      findItem (runItems cu rs us).localItems v = findItem rs.localItems v ∧
      findItem (runItems cu rs us).cloudItems v = findItem rs.cloudItems v := by
  intro us
  induction us with
  | nil => intro rs _; exact ⟨rfl, rfl⟩
  | cons u rest ih =>
    intro rs hv
    have hvu : v ≠ u := fun h => hv (h ▸ List.mem_cons_self u rest)
    have hrest : v ∉ rest := fun h => hv (List.mem_cons_of_mem u h)
    have h1 := processUuid_frame cu rs u v hvu
    have h2 := ih (processUuid cu rs u) hrest
    rw [runItems_cons]
    exact ⟨h2.1.trans h1.1, h2.2.trans h1.2⟩

theorem runItems_value (u : String) :
    ∀ (us : List String) (rs : RunState), us.Nodup → u ∈ us →
      findItem (runItems true rs us).localItems u =
        (mergedPair (findItem rs.localItems u)
          (findItem rs.cloudItems u)).1 ∧
      findItem (runItems true rs us).cloudItems u =
        (mergedPair (findItem rs.localItems u)
          (findItem rs.cloudItems u)).2 := by
  intro us
  induction us with
  | nil => intro rs _ hmem; simp at hmem
  | cons a rest ih =>
    intro rs hnd hmem
    rw [runItems_cons]
    rcases List.mem_cons.1 hmem with rfl | hmem'
    · have hnotin : u ∉ rest := (List.nodup_cons.1 hnd).1
      have hframe := runItems_frame true u rest (processUuid true rs u) hnotin
      have hval := processUuid_value rs u
      exact ⟨hframe.1.trans hval.1, hframe.2.trans hval.2⟩
    · have hau : u ≠ a := by
        intro h
        exact (List.nodup_cons.1 hnd).1 (h ▸ hmem')
      have hframe := processUuid_frame true rs a u hau
      have := ih (processUuid true rs a) (List.nodup_cons.1 hnd).2 hmem'
      rw [hframe.1, hframe.2] at this
      exact this

/-! ## Lemmas about the work list -/

theorem mem_allUuids_of_findItem_loc {loc cld : List Item} {u : String}
    {it : Item} (h : findItem loc u = some it) : u ∈ allUuids loc cld := by
  have hmem : u ∈ loc.map Item.uuid :=
    List.mem_map.2 ⟨it, findItem_mem h, findItem_uuid h⟩
  unfold allUuids
  by_cases hcld : u ∈ cld.map Item.uuid
  · exact List.mem_append_left _ hcld
  · refine List.mem_append_right _ (List.mem_filter.2 ⟨hmem, ?_⟩)
    simpa using hcld

theorem mem_allUuids_of_findItem_cld {loc cld : List Item} {u : String}
    {it : Item} (h : findItem cld u = some it) : u ∈ allUuids loc cld := by
  have hmem : u ∈ cld.map Item.uuid :=
    List.mem_map.2 ⟨it, findItem_mem h, findItem_uuid h⟩
  exact List.mem_append_left _ hmem

theorem findItem_none_of_not_mem_allUuids {loc cld : List Item} {u : String}
    (h : u ∉ allUuids loc cld) :
    findItem loc u = none ∧ findItem cld u = none := by
  constructor
  · cases hf : findItem loc u with
    | none => rfl
    | some it => exact absurd (mem_allUuids_of_findItem_loc hf) h
  · cases hf : findItem cld u with
    | none => rfl
    | some it => exact absurd (mem_allUuids_of_findItem_cld hf) h

theorem allUuids_nodup {loc cld : List Item}
    (hl : (loc.map Item.uuid).Nodup) (hc : (cld.map Item.uuid).Nodup) :
    (allUuids loc cld).Nodup := by
  unfold allUuids
  rw [List.nodup_append]
  refine ⟨hc, hl.filter _, ?_⟩
  intro a ha hb
  have hb' := List.mem_filter.1 hb
  have : a ∉ cld.map Item.uuid := by simpa using hb'.2
  exact this ha

theorem workList_nodup {loc cld : List Item}
    (hl : (loc.map Item.uuid).Nodup) (hc : (cld.map Item.uuid).Nodup) :
    (workList loc cld).Nodup :=
  (allUuids_nodup hl hc).filter _

/-- After one run over the work list, every uuid's pair of entries is
classified as needing no further action. -/
theorem final_state_synced (loc cld : List Item)
    (hl : (loc.map Item.uuid).Nodup) (hc : (cld.map Item.uuid).Nodup)
    (u : String) :
    classifyPair
      (findItem (runItems true ⟨loc, cld, 0, 0⟩ (workList loc cld)).localItems u)
      (findItem (runItems true ⟨loc, cld, 0, 0⟩ (workList loc cld)).cloudItems u)
      = none := by
  by_cases hu : u ∈ workList loc cld
  · have hval := runItems_value u (workList loc cld) ⟨loc, cld, 0, 0⟩
      (workList_nodup hl hc) hu
    rw [hval.1, hval.2]
    exact classifyPair_mergedPair _ _
  · have hframe := runItems_frame true u (workList loc cld) ⟨loc, cld, 0, 0⟩ hu
    rw [hframe.1, hframe.2]
    by_cases hall : u ∈ allUuids loc cld
    · cases hcl : classifyPair (findItem loc u) (findItem cld u) with
      | none => rfl
      | some a =>
        exact absurd (List.mem_filter.2 ⟨hall, by simp [hcl]⟩) hu
    · have hnone := findItem_none_of_not_mem_allUuids hall
      rw [hnone.1, hnone.2]
      rfl

/-- A fully synced pair of replicas has an empty work list. -/
theorem workList_eq_nil {loc cld : List Item}
    (h : ∀ u, classifyPair (findItem loc u) (findItem cld u) = none) :
    workList loc cld = [] := by
  unfold workList
  rw [List.filter_eq_nil_iff]
  intro u _ hp
  rw [h u] at hp
  simp at hp

/-! ## Preservation of uuid uniqueness by a run -/

theorem processUuid_nodup (cu : Bool) (rs : RunState) (u : String)
    (hL : (rs.localItems.map Item.uuid).Nodup)
    (hC : (rs.cloudItems.map Item.uuid).Nodup) :
    ((processUuid cu rs u).localItems.map Item.uuid).Nodup ∧
    ((processUuid cu rs u).cloudItems.map Item.uuid).Nodup := by
  unfold processUuid
  cases hcl : classifyPair (findItem rs.localItems u)
      (findItem rs.cloudItems u) with
  | none => exact ⟨hL, hC⟩
  | some a =>
    cases a with
    | copyToLocal it =>
      unfold applyAction
      cases cu with
      | false => exact ⟨hL, hC⟩
      | true =>
        simp only [Bool.not_true, Bool.false_eq_true, if_false]
        exact ⟨upsert_uuid_nodup _ _ hL, hC⟩
    | copyToCloud it =>
      unfold applyAction
      cases cu with
      | false => exact ⟨hL, hC⟩
      | true =>
        simp only [Bool.not_true, Bool.false_eq_true, if_false]
        exact ⟨hL, upsert_uuid_nodup _ _ hC⟩

theorem runItems_nodup (cu : Bool) :
    ∀ (us : List String) (rs : RunState),
      (rs.localItems.map Item.uuid).Nodup →
      (rs.cloudItems.map Item.uuid).Nodup →
      ((runItems cu rs us).localItems.map Item.uuid).Nodup ∧
      ((runItems cu rs us).cloudItems.map Item.uuid).Nodup := by
  intro us
  induction us with
  | nil => intro rs hL hC; exact ⟨hL, hC⟩
  | cons a rest ih =>
    intro rs hL hC
    rw [runItems_cons]
    have h1 := processUuid_nodup cu rs a hL hC
    exact ih (processUuid cu rs a) h1.1 h1.2

/-- Unfolding of a syncItems run whose local replica is unlocked. -/
theorem syncItems_ok (cu : Bool) (loc cld : List Item) :
    syncItems true cu loc cld = Except.ok
      { stats := snapshot SyncState.Idle (workList loc cld).length
          (runItems cu ⟨loc, cld, 0, 0⟩ (workList loc cld)),
        localItems := (runItems cu ⟨loc, cld, 0, 0⟩ (workList loc cld)).localItems,
        cloudItems := (runItems cu ⟨loc, cld, 0, 0⟩ (workList loc cld)).cloudItems,
        progress :=
          [SyncProgress.mk SyncState.ListingItems 0 0 0 0,
           snapshot SyncState.SyncingItems (workList loc cld).length
             ⟨loc, cld, 0, 0⟩] ++
            runSnapshots cu (workList loc cld).length ⟨loc, cld, 0, 0⟩
              (workList loc cld) ++
            [snapshot SyncState.Idle (workList loc cld).length
              (runItems cu ⟨loc, cld, 0, 0⟩ (workList loc cld))] } := rfl

/-! ## The claims -/

/-- C1: after a single syncItems run with both replicas unlocked and no
concurrent writers, the two replicas hold the same set of uuids, and for
every uuid the paired items agree on title, trashed flag and locations,
with updatedAt equal within the integer-seconds tolerance. -/
theorem syncItems_convergence (loc cld : List Item)
    (hl : (loc.map Item.uuid).Nodup) (hc : (cld.map Item.uuid).Nodup) :
    ∃ r : SyncResult, syncItems true true loc cld = Except.ok r ∧
      (∀ u : String, u ∈ r.localItems.map Item.uuid ↔
        u ∈ r.cloudItems.map Item.uuid) ∧
      (∀ u li ci, findItem r.localItems u = some li →
        findItem r.cloudItems u = some ci →
        li.title = ci.title ∧ li.trashed = ci.trashed ∧
        li.locations = ci.locations ∧
        itemUpdateTimesEqual li.updatedAt ci.updatedAt = true) := by
  refine ⟨_, syncItems_ok true loc cld, ?_, ?_⟩
  · intro u
    dsimp only
    have hs := final_state_synced loc cld hl hc u
    rcases classifyPair_none_inv hs with ⟨h1, h2⟩ | ⟨li, ci, h1, h2, _, _⟩
    · constructor
      · intro hm
        exact absurd hm (findItem_none_iff.1 h1)
      · intro hm
        exact absurd hm (findItem_none_iff.1 h2)
    · constructor
      · intro _
        exact List.mem_map.2 ⟨ci, findItem_mem h2, findItem_uuid h2⟩
      · intro _
        exact List.mem_map.2 ⟨li, findItem_mem h1, findItem_uuid h1⟩
  · intro u li ci hfl hfc
    dsimp only at hfl hfc
    have hs := final_state_synced loc cld hl hc u
    rcases classifyPair_none_inv hs with ⟨h1, h2⟩ | ⟨li', ci', h1, h2, ht, ha⟩
    · rw [hfl] at h1
      cases h1
    · rw [hfl] at h1
      rw [hfc] at h2
      injection h1 with h1'
      injection h2 with h2'
      subst h1'
      subst h2'
      obtain ⟨t, tr, lo, _⟩ := recordsAgree_fields ha
      exact ⟨t, tr, lo, ht⟩

/-- Witness for C1 on a pair of concrete replicas. -/
theorem syncItems_convergence_witness :
    ∃ r : SyncResult,
      syncItems true true []
        [⟨"A", "t", 1000, 0, false, ["u"], "c"⟩] = Except.ok r ∧
      (∀ u : String, u ∈ r.localItems.map Item.uuid ↔
        u ∈ r.cloudItems.map Item.uuid) ∧
      (∀ u li ci, findItem r.localItems u = some li →
        findItem r.cloudItems u = some ci →
        li.title = ci.title ∧ li.trashed = ci.trashed ∧
        li.locations = ci.locations ∧
        itemUpdateTimesEqual li.updatedAt ci.updatedAt = true) :=
  syncItems_convergence [] [⟨"A", "t", 1000, 0, false, ["u"], "c"⟩]
    (by simp) (by simp)

/-- C2: a second syncItems run right after a completed one, with no
intervening writes, reports zero updated and zero failed items and
leaves both replicas' item listings unchanged. -/
theorem syncItems_idempotence (loc cld : List Item)
    (hl : (loc.map Item.uuid).Nodup) (hc : (cld.map Item.uuid).Nodup) :
    ∃ r1 r2 : SyncResult,
      syncItems true true loc cld = Except.ok r1 ∧
      syncItems true true r1.localItems r1.cloudItems = Except.ok r2 ∧
      r2.stats.updated = 0 ∧ r2.stats.failed = 0 ∧
      r2.localItems = r1.localItems ∧ r2.cloudItems = r1.cloudItems := by
  have hwl : workList
      (runItems true ⟨loc, cld, 0, 0⟩ (workList loc cld)).localItems
      (runItems true ⟨loc, cld, 0, 0⟩ (workList loc cld)).cloudItems = [] :=
    workList_eq_nil (final_state_synced loc cld hl hc)
  refine ⟨_, _, syncItems_ok true loc cld, syncItems_ok true _ _,
    ?_, ?_, ?_, ?_⟩ <;> dsimp only <;> rw [hwl] <;> rfl

/-- Witness for C2 on a pair of concrete replicas. -/
theorem syncItems_idempotence_witness :
    ∃ r1 r2 : SyncResult,
      syncItems true true [⟨"B", "s", 2000, 0, false, [], "d"⟩] []
        = Except.ok r1 ∧
      syncItems true true r1.localItems r1.cloudItems = Except.ok r2 ∧
      r2.stats.updated = 0 ∧ r2.stats.failed = 0 ∧
      r2.localItems = r1.localItems ∧ r2.cloudItems = r1.cloudItems :=
  syncItems_idempotence [⟨"B", "s", 2000, 0, false, [], "d"⟩] []
    (by simp) (by simp)

/-- C3: a syncItems call made while a run is outstanding returns the
identical handle and leaves the Syncer unchanged — no second pipeline
is started. -/
theorem syncItemsCall_single_flight (s : Syncer) :
    (syncItemsCall s).2.inFlightItems = some (syncItemsCall s).1 ∧
    syncItemsCall (syncItemsCall s).2 =
      ((syncItemsCall s).1, (syncItemsCall s).2) := by
  obtain ⟨inf, nh⟩ := s
  cases inf <;> simp [syncItemsCall]

/-- C7: when the local replica cannot be unlocked, the whole run fails
with an explicit error and no stats. -/
theorem syncItems_locked_local (cu : Bool) (loc cld : List Item) :
    syncItems false cu loc cld = Except.error SyncError.LockedReplica := rfl

/-- C8: a run with an empty work list still visits every state, emitting
exactly the three all-zero snapshots ListingItems, SyncingItems, Idle. -/
theorem syncItems_empty_run (cu : Bool) (loc cld : List Item)
    (h : workList loc cld = []) :
    syncItems true cu loc cld = Except.ok
      { stats := ⟨SyncState.Idle, 0, 0, 0, 0⟩,
        localItems := loc,
        cloudItems := cld,
        progress :=
          [⟨SyncState.ListingItems, 0, 0, 0, 0⟩,
           ⟨SyncState.SyncingItems, 0, 0, 0, 0⟩,
           ⟨SyncState.Idle, 0, 0, 0, 0⟩] } := by
  rw [syncItems_ok, h]
  rfl

/-- Witness for C8 on two empty replicas. -/
theorem syncItems_empty_run_witness :
    syncItems true true [] [] = Except.ok
      { stats := ⟨SyncState.Idle, 0, 0, 0, 0⟩,
        localItems := [],
        cloudItems := [],
        progress :=
          [⟨SyncState.ListingItems, 0, 0, 0, 0⟩,
           ⟨SyncState.SyncingItems, 0, 0, 0, 0⟩,
           ⟨SyncState.Idle, 0, 0, 0, 0⟩] } :=
  syncItems_empty_run true [] [] rfl

/-- C4: syncing exactly one newly created cloud item emits exactly four
snapshots — ListingItems(0,0,0,0), SyncingItems(1,0,0,0),
SyncingItems(1,0,1,0), Idle(1,0,1,0) — and the final Idle snapshot is
the run's resolved stats. -/
theorem syncItems_one_new_item (it : Item) :
    syncItems true true [] [it] = Except.ok
      { stats := ⟨SyncState.Idle, 1, 0, 1, 0⟩,
        localItems := [it],
        cloudItems := [it],
        progress :=
          [⟨SyncState.ListingItems, 0, 0, 0, 0⟩,
           ⟨SyncState.SyncingItems, 1, 0, 0, 0⟩,
           ⟨SyncState.SyncingItems, 1, 0, 1, 0⟩,
           ⟨SyncState.Idle, 1, 0, 1, 0⟩] } := by
  have h2 : findItem [it] it.uuid = some it := by
    unfold findItem
    rw [List.find?_cons_of_pos]
    simp
  have hcl : classifyPair (findItem ([] : List Item) it.uuid)
      (findItem [it] it.uuid) = some (MergeAction.copyToLocal it) := by
    rw [h2]
    rfl
  have hwl : workList [] [it] = [it.uuid] := by
    unfold workList allUuids
    simp [List.filter_cons, hcl]
  have hproc : processUuid true ⟨[], [it], 0, 0⟩ it.uuid =
      ⟨[it], [it], 1, 0⟩ := by
    unfold processUuid
    dsimp only
    rw [hcl]
    simp [applyAction, upsertItem]
  rw [syncItems_ok, hwl]
  simp only [List.length_cons, List.length_nil]
  rw [show runItems true ⟨[], [it], 0, 0⟩ [it.uuid] =
      processUuid true ⟨[], [it], 0, 0⟩ it.uuid from rfl]
  rw [show runSnapshots true (0 + 1) ⟨[], [it], 0, 0⟩ [it.uuid] =
      [snapshot SyncState.SyncingItems (0 + 1)
        (processUuid true ⟨[], [it], 0, 0⟩ it.uuid)] from rfl]
  rw [hproc]
  rfl

/-- C5: after a tombstoned record with the strictly newest update time
on the cloud replica is synced, the local replica lists that uuid as a
tombstone when tombstones are included, omits it otherwise, and retains
the record rather than erasing it. -/
theorem syncItems_tombstone_propagation (loc cld : List Item) (u : String)
    (ct : Item)
    (hl : (loc.map Item.uuid).Nodup) (hc : (cld.map Item.uuid).Nodup)
    (hct : findItem cld u = some ct) (htr : ct.trashed = true)
    (hnew : ∀ li, findItem loc u = some li →
      li.updatedAt / 1000 < ct.updatedAt / 1000) :
    ∃ r : SyncResult, syncItems true true loc cld = Except.ok r ∧
      (∃ x ∈ listItems r.localItems true, x.uuid = u ∧ x.isTombstone = true) ∧
      (∀ x ∈ listItems r.localItems false, x.uuid ≠ u) := by
  have hcl : classifyPair (findItem loc u) (findItem cld u) =
      some (MergeAction.copyToLocal ct) := by
    cases hf : findItem loc u with
    | none =>
      rw [hct]
      rfl
    | some li =>
      have hlt := hnew li hf
      rw [hct]
      have h1 : itemUpdateTimesEqual li.updatedAt ct.updatedAt = false := by
        unfold itemUpdateTimesEqual
        simp [Nat.ne_of_lt hlt]
      have h2 : ¬ ct.updatedAt < li.updatedAt := by
        intro hlt2
        have hdiv : ct.updatedAt / 1000 ≤ li.updatedAt / 1000 :=
          Nat.div_le_div_right (Nat.le_of_lt hlt2)
        omega
      simp [classifyPair, h1, h2]
  have humem : u ∈ workList loc cld :=
    List.mem_filter.2 ⟨mem_allUuids_of_findItem_cld hct, by simp [hcl]⟩
  have hval := runItems_value u (workList loc cld) ⟨loc, cld, 0, 0⟩
    (workList_nodup hl hc) humem
  have hmp : mergedPair (findItem loc u) (findItem cld u) =
      (some ct, some ct) := by
    unfold mergedPair
    rw [hcl]
  have hfin : findItem
      (runItems true ⟨loc, cld, 0, 0⟩ (workList loc cld)).localItems u =
      some ct := by
    rw [hval.1]
    dsimp only
    rw [hmp]
  have hnod := (runItems_nodup true (workList loc cld) ⟨loc, cld, 0, 0⟩
    hl hc).1
  refine ⟨_, syncItems_ok true loc cld, ?_, ?_⟩
  · exact ⟨ct, findItem_mem hfin, findItem_uuid hfin, htr⟩
  · intro x hx hxu
    have hx' := List.mem_filter.1 hx
    have hxeq : x = ct :=
      List.inj_on_of_nodup_map hnod hx'.1 (findItem_mem hfin)
        (hxu.trans (findItem_uuid hfin).symm)
    have h2 := hx'.2
    rw [hxeq] at h2
    simp [Item.isTombstone, htr] at h2

/-- Witness for C5: a freshly tombstoned cloud record reaches an empty
local replica. -/
theorem syncItems_tombstone_propagation_witness :
    ∃ r : SyncResult,
      syncItems true true []
        [⟨"T", "gone", 5000, 0, true, [], "c"⟩] = Except.ok r ∧
      (∃ x ∈ listItems r.localItems true,
        x.uuid = "T" ∧ x.isTombstone = true) ∧
      (∀ x ∈ listItems r.localItems false, x.uuid ≠ "T") :=
  syncItems_tombstone_propagation [] [⟨"T", "gone", 5000, 0, true, [], "c"⟩]
    "T" ⟨"T", "gone", 5000, 0, true, [], "c"⟩
    (by simp) (by simp) (by decide) rfl
    (by intro li h; cases h)

/-- C6: when the source hint fetch fails, syncKeys still completes with
the destination holding the source's full key list and an empty hint;
the fetch error never surfaces. -/
theorem syncKeys_missing_hint (cloudKeys : List Key) (e : HintError) :
    syncKeys cloudKeys (Except.error e) =
      { keys := cloudKeys, hint := "" } := rfl

end Passcards
